import Mathlib

/-!
Verification development for `evaluation_system.py` (ClassVote).

The file shallowly embeds the two halves of the program that the
specification talks about:

* the aggregation and ranking engine `calculate_results` (lines 94-146 of
  the source): a pure function of a snapshot of the four sqlite tables
  (`users`, `self_evals`, `peer_votes`, `officer_votes`), modelled here as
  lists; and
* the submission handlers of `main` (self evaluation, peer ballot, officer
  ballot, administrative reset) together with the interface constraints the
  Streamlit widgets impose on their inputs, modelled as a state machine on
  the ledger tables.

Numbers: the source computes scores with float64 and rounds columns with
pandas `Series.round(2)`, which delegates to numpy `round` / `rint`, i.e.
round-half-to-even on the value scaled by 100.  The embedding idealises the
arithmetic over exact rationals and models the rounding as exact
round-half-to-even on the scaled value (`roundHalfEven`, `round2`).
-/

namespace ClassVote

set_option maxRecDepth 1000000

/-- The configured officer student-id list (`OFFICER_IDS`, source lines 13-18). -/
def OFFICER_IDS : List String :=
  ["251812037", "251812057", "251812069", "251812070"]

/-- A row of the `users` table (source lines 30-34; the password column is
irrelevant to every claim and omitted).  Roles stored in the table are
`"admin"` for the administrator and `"student"` for every imported member
(source lines 59, 73). -/
structure User where
  uid : String
  name : String
  role : String
deriving DecidableEq

/-- The session role of a logged-in user (source lines 192-196): a user whose
uid appears in `OFFICER_IDS` is elevated to `"officer"`, everyone else keeps
the stored role. -/
def sessionRole (u : User) : String :=
  if u.uid ∈ OFFICER_IDS then "officer" else u.role

/-- Round to the nearest integer, ties to even: the rounding performed by
numpy `rint`, which pandas `Series.round` applies to the value scaled by
`10 ^ decimals`.  Modelled exactly on rationals. -/
def roundHalfEven (q : ℚ) : ℤ :=
  if Int.fract q < 1/2 then ⌊q⌋
  else if 1/2 < Int.fract q then ⌊q⌋ + 1
  else if ⌊q⌋ % 2 = 0 then ⌊q⌋ else ⌊q⌋ + 1

/-- `Series.round(2)` (source lines 134-136): scale by 100, round ties to
even, scale back. -/
def round2 (q : ℚ) : ℚ :=
  (roundHalfEven (q * 100) : ℚ) / 100

/-- Modelled from the spec: round-half-away-from-zero to the nearest
integer.  This is the rounding mode §4.3 of the spec prescribes for
`finalScore`; it is defined here only to compare it with the code's
rounding and is used by no code-derived definition. -/
def roundHalfAway (q : ℚ) : ℤ :=
  if 0 ≤ q then ⌊q + 1/2⌋ else -⌊-q + 1/2⌋

/-- Modelled from the spec: round-half-away-from-zero to 2 decimal places. -/
def roundHalfAway2 (q : ℚ) : ℚ :=
  (roundHalfAway (q * 100) : ℚ) / 100

/-- One row of the data frame produced by `calculate_results` at the moment
it is sorted (source line 139): the two id columns, the raw `self_score` and
the two raw vote counts, and the three score columns, which hold the values
rounded to 2 decimals (source lines 134-136). -/
structure ResultRow where
  uid : String
  name : String
  self_score : ℚ
  vote_count : ℕ
  officer_vote_count : ℕ
  peer_score : ℚ
  org_score : ℚ
  final_score : ℚ
deriving DecidableEq

/-- `SELECT uid, name FROM users WHERE role='student' OR role='officer'`
(source line 101): the population the engine ranks. -/
def studentsOf (users : List User) : List User :=
  users.filter (fun u => u.role == "student" || u.role == "officer")

/-- The self score of a member after the left merge with `self_evals` and
`fillna(0)` (source lines 104, 113): the stored score, or 0 if absent. -/
def selfScoreOf (selfEvals : List (String × ℚ)) (uid : String) : ℚ :=
  ((selfEvals.find? (fun p => p.1 == uid)).map Prod.snd).getD 0

/-- `SELECT candidate_uid, COUNT(*) ... GROUP BY candidate_uid` merged with
`fillna(0)` (source lines 107, 110, 114-115): the number of ballot edges
naming `uid` as candidate. -/
def voteCountFor (votes : List (String × String)) (uid : String) : ℕ :=
  (votes.filter (fun e => e.2 == uid)).length

/-- The peer-score denominator (source line 122):
`total_students - 1 if total_students > 1 else 1`. -/
def maxPeerVotes (users : List User) : ℕ :=
  if (studentsOf users).length > 1 then (studentsOf users).length - 1 else 1

/-- The peer sub-score before rounding (source line 123):
`(vote_count / max_peer_votes) * 100`. -/
def peerScoreExact (users : List User) (peerVotes : List (String × String))
    (uid : String) : ℚ :=
  (voteCountFor peerVotes uid : ℚ) / (maxPeerVotes users : ℚ) * 100

/-- The organisational sub-score before rounding (source line 127):
`(officer_vote_count / 4) * 100`, with the literal constant 4. -/
def orgScoreExact (officerVotes : List (String × String)) (uid : String) : ℚ :=
  (voteCountFor officerVotes uid : ℚ) / 4 * 100

/-- The composite score before rounding (source line 131):
`self*0.3 + peer*0.3 + org*0.4`, the float weights read as exact rationals. -/
def finalScoreExact (users : List User) (selfEvals : List (String × ℚ))
    (peerVotes officerVotes : List (String × String)) (uid : String) : ℚ :=
  selfScoreOf selfEvals uid * (3/10) + peerScoreExact users peerVotes uid * (3/10)
    + orgScoreExact officerVotes uid * (2/5)

/-- The data-frame row for one member, with the three score columns rounded
to 2 decimals as by source lines 134-136. -/
def mkRow (users : List User) (selfEvals : List (String × ℚ))
    (peerVotes officerVotes : List (String × String)) (u : User) : ResultRow :=
  ⟨u.uid, u.name,
   selfScoreOf selfEvals u.uid,
   voteCountFor peerVotes u.uid,
   voteCountFor officerVotes u.uid,
   round2 (peerScoreExact users peerVotes u.uid),
   round2 (orgScoreExact officerVotes u.uid),
   round2 (finalScoreExact users selfEvals peerVotes officerVotes u.uid)⟩

/-- The comparison of source line 139:
`sort_values(by=['final_score','org_score','vote_count','self_score'],
ascending=[False]*4)`.  `rowLE a b` holds when row `a` may come no later
than row `b` in the sorted output: lexicographically larger-or-equal on the
four keys. -/
def rowLE (a b : ResultRow) : Prop :=
  b.final_score < a.final_score ∨ (b.final_score = a.final_score ∧
    (b.org_score < a.org_score ∨ (b.org_score = a.org_score ∧
      (b.vote_count < a.vote_count ∨ (b.vote_count = a.vote_count ∧
        b.self_score ≤ a.self_score)))))

instance : DecidableRel rowLE := fun a b => by
  unfold rowLE; infer_instance

/-- The aggregation and ranking engine (source lines 94-146) as a pure
function of the four table snapshots.  A pandas multi-column `sort_values`
is a stable lexicographic sort (`numpy.lexsort`), and `List.insertionSort`
is exactly the stable sort of the row list under the total preorder
`rowLE`, so the produced row order is the source's. -/
def calculate_results (users : List User) (selfEvals : List (String × ℚ))
    (peerVotes officerVotes : List (String × String)) : List ResultRow :=
  List.insertionSort rowLE
    ((studentsOf users).map (mkRow users selfEvals peerVotes officerVotes))

/-- Modelled from the spec: the number of directory members holding the
Officer role, the `OfficerCount` §4.3 prescribes as the organisational-score
denominator.  A member holds the Officer role exactly when login elevates
it (source lines 194-196), i.e. when its uid appears in `OFFICER_IDS`.
Defined only to compare the spec's denominator with the code's literal 4. -/
def directoryOfficerCount (users : List User) : ℕ :=
  (users.filter (fun u => sessionRole u == "officer")).length

/-- The mutable contents of the three ledger tables (source lines 37-51):
`self_evals` rows, `peer_votes` edges and `officer_votes` edges, each edge a
`(voter_uid, candidate_uid)` pair. -/
structure LedgerState where
  selfEvals : List (String × ℚ)
  peerVotes : List (String × String)
  officerVotes : List (String × String)
deriving DecidableEq

/-- The empty ledger: the state after `init_db` on a fresh database, and the
state the administrative clear (source lines 363-365) restores. -/
def initialState : LedgerState := ⟨[], [], []⟩

/-- The outcome a submission handler reports to the user: success (insert
and commit), the already-submitted notice that replaces the form (source
lines 245-246, 260-261, 295-296), or the cardinality error message (source
lines 279-280, 316-317). -/
inductive SubmitResult where
  | ok
  | alreadySubmitted
  | duplicateSubmission
  | wrongCardinality
deriving DecidableEq

/-- `SELECT score FROM self_evals WHERE uid=?` non-empty (source lines
243-244). -/
def hasSelfEval (s : LedgerState) (uid : String) : Bool :=
  s.selfEvals.any (fun p => p.1 == uid)

/-- The self-evaluation tab (source lines 241-254): if a record exists the
form is replaced by the done notice, otherwise the submitted score is
inserted.  The handler itself performs no range check on the score; the
interface constraint (`st.number_input("分数", 0, 100, step=1)`) is imposed
where the step relation below quantifies over inputs. -/
def submitSelfScore (s : LedgerState) (uid : String) (score : ℚ) :
    SubmitResult × LedgerState :=
  if hasSelfEval s uid then (.alreadySubmitted, s)
  else (.ok, ⟨s.selfEvals ++ [(uid, score)], s.peerVotes, s.officerVotes⟩)

/-- `SELECT count(*) FROM ... WHERE voter_uid=?` (source lines 259, 294):
the number of persisted edges of one voter in one channel. -/
def voterBallotCount (votes : List (String × String)) (voter : String) : ℕ :=
  (votes.filter (fun e => e.1 == voter)).length

/-- The peer-ballot tab (source lines 258-286): a voter with persisted peer
edges only sees the done notice; otherwise a selection of exactly 10 is
required, and on success the 10 edges are inserted and committed as one
`executemany`.  The handler checks only the selection length; distinctness
and the exclusion of the voter come from the widget options (see
`peerCandidates` and the step relation). -/
def submitPeerBallot (s : LedgerState) (voter : String) (sel : List String) :
    SubmitResult × LedgerState :=
  if voterBallotCount s.peerVotes voter > 0 then (.duplicateSubmission, s)
  else if sel.length ≠ 10 then (.wrongCardinality, s)
  else (.ok, ⟨s.selfEvals, s.peerVotes ++ sel.map (fun c => (voter, c)), s.officerVotes⟩)

/-- The officer-ballot tab (source lines 290-324), identical to the peer tab
but on `officer_votes` and with the voter personally selectable. -/
def submitOfficerBallot (s : LedgerState) (voter : String) (sel : List String) :
    SubmitResult × LedgerState :=
  if voterBallotCount s.officerVotes voter > 0 then (.duplicateSubmission, s)
  else if sel.length ≠ 10 then (.wrongCardinality, s)
  else (.ok, ⟨s.selfEvals, s.peerVotes, s.officerVotes ++ sel.map (fun c => (voter, c))⟩)

/-- The administrative clear (source lines 361-366): deletes all rows of the
three ledger tables in one commit. -/
def resetAll (_s : LedgerState) : LedgerState := initialState

/-- The peer-ballot candidate list (source line 265):
`SELECT uid ... WHERE role!='admin' AND uid != ?` — everyone but the
administrator and the voter personally. -/
def peerCandidates (users : List User) (voter : String) : List String :=
  (users.filter (fun u => u.role != "admin" && u.uid != voter)).map User.uid

/-- The officer-ballot candidate list (source line 302):
`SELECT uid ... WHERE role!='admin'` — everyone but the administrator,
the voter included. -/
def officerChannelCandidates (users : List User) : List String :=
  (users.filter (fun u => u.role != "admin")).map User.uid

/-- `SELECT count(DISTINCT voter_uid)` (source lines 336-337): the number of
voters with a completed ballot set in a channel. -/
def completedVoterCount (votes : List (String × String)) : ℕ :=
  (votes.map Prod.fst).dedup.length

/-- One user-interface interaction that can change the ledger, together with
the constraints the interface imposes on its input: the self form is shown
to students and officers and its number widget only produces integers in
[0,100] (source line 250); ballot selections are drawn from the rendered
candidate list, are duplicate-free by construction of `st.multiselect`, and
are capped at 10 by `max_selections=10`; the officer tab exists only for
session officers (source lines 233-234, 290); the clear button lives on the
admin console (source lines 329, 361). -/
inductive Step (users : List User) : LedgerState → LedgerState → Prop
  | selfEval (s : LedgerState) (u : User) (score : ℤ) :
      u ∈ users → (sessionRole u = "student" ∨ sessionRole u = "officer") →
      0 ≤ score → score ≤ 100 →
      Step users s (submitSelfScore s u.uid (score : ℚ)).2
  | peer (s : LedgerState) (u : User) (sel : List String) :
      u ∈ users → (sessionRole u = "student" ∨ sessionRole u = "officer") →
      sel.Nodup → (∀ c ∈ sel, c ∈ peerCandidates users u.uid) → sel.length ≤ 10 →
      Step users s (submitPeerBallot s u.uid sel).2
  | officer (s : LedgerState) (u : User) (sel : List String) :
      u ∈ users → sessionRole u = "officer" →
      sel.Nodup → (∀ c ∈ sel, c ∈ officerChannelCandidates users) → sel.length ≤ 10 →
      Step users s (submitOfficerBallot s u.uid sel).2
  | reset (s : LedgerState) :
      Step users s (resetAll s)

/-- A ledger state the running system can be in: reachable from the empty
database by interface interactions. -/
def Reachable (users : List User) (s : LedgerState) : Prop :=
  Relation.ReflTransGen (Step users) initialState s

/-! ### Properties of the rounding -/

lemma floor_le_roundHalfEven (q : ℚ) : ⌊q⌋ ≤ roundHalfEven q := by
  unfold roundHalfEven; split_ifs <;> omega

lemma roundHalfEven_le_floor_add_one (q : ℚ) : roundHalfEven q ≤ ⌊q⌋ + 1 := by
  unfold roundHalfEven; split_ifs <;> omega

lemma roundHalfEven_le (q : ℚ) : (roundHalfEven q : ℚ) ≤ q + 1/2 := by
  have hfr : Int.fract q = q - ⌊q⌋ := rfl
  have hlt : Int.fract q < 1 := Int.fract_lt_one q
  have hle : (⌊q⌋ : ℚ) ≤ q := Int.floor_le q
  unfold roundHalfEven
  split_ifs with h1 h2 h3 <;> push_cast <;> linarith

lemma le_roundHalfEven (q : ℚ) : q - 1/2 ≤ (roundHalfEven q : ℚ) := by
  have hfr : Int.fract q = q - ⌊q⌋ := rfl
  have hnn : 0 ≤ Int.fract q := Int.fract_nonneg q
  have hlt : Int.fract q < 1 := Int.fract_lt_one q
  unfold roundHalfEven
  split_ifs with h1 h2 h3 <;> push_cast <;> linarith

lemma roundHalfEven_mono {a b : ℚ} (h : a ≤ b) : roundHalfEven a ≤ roundHalfEven b := by
  have hfl : ⌊a⌋ ≤ ⌊b⌋ := Int.floor_mono h
  rcases eq_or_lt_of_le hfl with heq | hlt
  · have hfr : Int.fract a ≤ Int.fract b := by
      unfold Int.fract; rw [← heq]; linarith
    unfold roundHalfEven
    rw [← heq]
    split_ifs <;> first | omega | linarith
  · calc roundHalfEven a ≤ ⌊a⌋ + 1 := roundHalfEven_le_floor_add_one a
    _ ≤ ⌊b⌋ := by omega
    _ ≤ roundHalfEven b := floor_le_roundHalfEven b

lemma roundHalfEven_intCast (z : ℤ) : roundHalfEven (z : ℚ) = z := by
  unfold roundHalfEven
  rw [Int.floor_intCast, Int.fract_intCast]
  norm_num

lemma round2_mono {a b : ℚ} (h : a ≤ b) : round2 a ≤ round2 b := by
  have h100 : a * 100 ≤ b * 100 := by linarith
  have hz := roundHalfEven_mono h100
  have hq : (roundHalfEven (a * 100) : ℚ) ≤ (roundHalfEven (b * 100) : ℚ) := by
    exact_mod_cast hz
  unfold round2
  linarith

lemma abs_round2_sub_le (q : ℚ) : |round2 q - q| ≤ 1/200 := by
  have h1 := roundHalfEven_le (q * 100)
  have h2 := le_roundHalfEven (q * 100)
  unfold round2
  rw [abs_le]
  constructor <;> [linarith; linarith]

lemma round2_eq_dist {a b : ℚ} (h : round2 a = round2 b) : |a - b| ≤ 1/100 := by
  have ha := abs_round2_sub_le a
  have hb := abs_round2_sub_le b
  have : a - b = (a - round2 a) + (round2 b - b) := by rw [h]; ring
  calc |a - b| = |(a - round2 a) + (round2 b - b)| := by rw [this]
  _ ≤ |a - round2 a| + |round2 b - b| := abs_add _ _
  _ ≤ 1/200 + 1/200 := by
      rw [abs_sub_comm a (round2 a)]
      exact add_le_add ha hb
  _ = 1/100 := by norm_num

lemma round2_natMul (n : ℕ) : round2 (25 * (n : ℚ)) = 25 * n := by
  have : (25 * (n : ℚ)) * 100 = ((2500 * n : ℤ) : ℚ) := by push_cast; ring
  unfold round2
  rw [this, roundHalfEven_intCast]
  push_cast; ring

/-! ### The sort comparison is a total preorder -/

lemma rowLE_total (a b : ResultRow) : rowLE a b ∨ rowLE b a := by
  unfold rowLE
  rcases lt_trichotomy a.final_score b.final_score with h | h | h
  · exact Or.inr (Or.inl h)
  · rcases lt_trichotomy a.org_score b.org_score with h2 | h2 | h2
    · exact Or.inr (Or.inr ⟨h, Or.inl h2⟩)
    · rcases lt_trichotomy a.vote_count b.vote_count with h3 | h3 | h3
      · exact Or.inr (Or.inr ⟨h, Or.inr ⟨h2, Or.inl h3⟩⟩)
      · rcases le_total b.self_score a.self_score with h4 | h4
        · exact Or.inl (Or.inr ⟨h.symm, Or.inr ⟨h2.symm, Or.inr ⟨h3.symm, h4⟩⟩⟩)
        · exact Or.inr (Or.inr ⟨h, Or.inr ⟨h2, Or.inr ⟨h3, h4⟩⟩⟩)
      · exact Or.inl (Or.inr ⟨h.symm, Or.inr ⟨h2.symm, Or.inl h3⟩⟩)
    · exact Or.inl (Or.inr ⟨h.symm, Or.inl h2⟩)
  · exact Or.inl (Or.inl h)

lemma rowLE_trans (a b c : ResultRow) (hab : rowLE a b) (hbc : rowLE b c) : rowLE a c := by
  unfold rowLE at hab hbc ⊢
  rcases hab with h1 | ⟨e1, hab⟩
  · rcases hbc with h1' | ⟨e1', _⟩
    · exact Or.inl (lt_trans h1' h1)
    · exact Or.inl (e1' ▸ h1)
  · rcases hbc with h1' | ⟨e1', hbc⟩
    · exact Or.inl (e1 ▸ h1')
    · refine Or.inr ⟨e1'.trans e1, ?_⟩
      rcases hab with h2 | ⟨e2, hab⟩
      · rcases hbc with h2' | ⟨e2', _⟩
        · exact Or.inl (lt_trans h2' h2)
        · exact Or.inl (e2' ▸ h2)
      · rcases hbc with h2' | ⟨e2', hbc⟩
        · exact Or.inl (e2 ▸ h2')
        · refine Or.inr ⟨e2'.trans e2, ?_⟩
          rcases hab with h3 | ⟨e3, hab⟩
          · rcases hbc with h3' | ⟨e3', _⟩
            · exact Or.inl (lt_trans h3' h3)
            · exact Or.inl (e3' ▸ h3)
          · rcases hbc with h3' | ⟨e3', hbc⟩
            · exact Or.inl (e3 ▸ h3')
            · exact Or.inr ⟨e3'.trans e3, le_trans hbc hab⟩

instance : IsTotal ResultRow rowLE := ⟨rowLE_total⟩

instance : IsTrans ResultRow rowLE := ⟨rowLE_trans⟩

/-! ### Ledger counting lemmas -/

lemma voterBallotCount_append (xs ys : List (String × String)) (v : String) :
    voterBallotCount (xs ++ ys) v = voterBallotCount xs v + voterBallotCount ys v := by
  unfold voterBallotCount
  rw [List.filter_append, List.length_append]

lemma voterBallotCount_batch (voter v : String) (sel : List String) :
    voterBallotCount (sel.map (fun c => (voter, c))) v
      = if voter = v then sel.length else 0 := by
  induction sel with
  | nil => simp [voterBallotCount]
  | cons c cs ih =>
      unfold voterBallotCount at ih ⊢
      by_cases h : voter = v
      · subst h
        simp [List.filter_cons, ih]
      · simp [List.filter_cons, h, ih]

lemma voterBallotCount_eq_zero {votes : List (String × String)} {v : String} :
    voterBallotCount votes v = 0 ↔ ∀ e ∈ votes, e.1 ≠ v := by
  unfold voterBallotCount
  rw [List.length_eq_zero, List.filter_eq_nil_iff]
  simp

lemma completedVoterCount_toFinset (votes : List (String × String)) :
    completedVoterCount votes = (votes.map Prod.fst).toFinset.card := by
  unfold completedVoterCount
  rw [List.card_toFinset]

lemma map_fst_batch (voter : String) (sel : List String) :
    (sel.map (fun c => (voter, c))).map Prod.fst = sel.map (fun _ => voter) := by
  rw [List.map_map]
  rfl

lemma toFinset_map_const {voter : String} {sel : List String} (h : sel ≠ []) :
    (sel.map (fun _ => voter)).toFinset = {voter} := by
  induction sel with
  | nil => exact absurd rfl h
  | cons c cs ih =>
      by_cases hcs : cs = []
      · subst hcs; simp
      · rw [List.map_cons, List.toFinset_cons, ih hcs]
        simp

lemma completedVoterCount_append_batch (votes : List (String × String)) (voter : String)
    (sel : List String) (hne : sel ≠ []) (hfresh : ∀ e ∈ votes, e.1 ≠ voter) :
    completedVoterCount (votes ++ sel.map (fun c => (voter, c)))
      = completedVoterCount votes + 1 := by
  rw [completedVoterCount_toFinset, completedVoterCount_toFinset, List.map_append,
    List.toFinset_append, map_fst_batch, toFinset_map_const hne]
  have hnm : voter ∉ (votes.map Prod.fst).toFinset := by
    rw [List.mem_toFinset]
    intro hmem
    rcases List.mem_map.1 hmem with ⟨e, he, hfst⟩
    exact hfresh e he hfst
  rw [Finset.union_comm, ← Finset.insert_eq, Finset.card_insert_of_not_mem hnm]

lemma sum_indicator_one {L : List String} {a : String} (hnd : L.Nodup) (ha : a ∈ L) :
    (L.map (fun c => if a = c then (1 : ℕ) else 0)).sum = 1 := by
  induction L with
  | nil => exact absurd ha (List.not_mem_nil a)
  | cons x xs ih =>
      rcases List.mem_cons.1 ha with rfl | hmem
      · have hnx : a ∉ xs := (List.nodup_cons.1 hnd).1
        have hz : (xs.map (fun c => if a = c then (1 : ℕ) else 0)).sum = 0 := by
          rw [List.sum_eq_zero]
          intro m hm
          rcases List.mem_map.1 hm with ⟨c, hc, rfl⟩
          have : a ≠ c := by rintro rfl; exact hnx hc
          simp [this]
        simp [hz]
      · have hne : a ≠ x := by rintro rfl; exact (List.nodup_cons.1 hnd).1 hmem
        simp [hne, ih (List.nodup_cons.1 hnd).2 hmem]

lemma sum_counts_eq_length (L : List String) (edges : List (String × String))
    (hnd : L.Nodup) (hmem : ∀ e ∈ edges, e.2 ∈ L) :
    (L.map (fun c => voteCountFor edges c)).sum = edges.length := by
  induction edges with
  | nil =>
      have hz : ∀ c, voteCountFor ([] : List (String × String)) c = 0 := fun _ => rfl
      simp [hz]
  | cons e es ih =>
      have hmem' : ∀ x ∈ es, x.2 ∈ L := fun x hx => hmem x (List.mem_cons_of_mem _ hx)
      have hcount : ∀ c, voteCountFor (e :: es) c
          = (if e.2 = c then 1 else 0) + voteCountFor es c := by
        intro c
        unfold voteCountFor
        rw [List.filter_cons]
        by_cases h : e.2 = c
        · simp [h, Nat.add_comm]
        · simp [h]
      calc (L.map fun c => voteCountFor (e :: es) c).sum
          = (L.map fun c => (if e.2 = c then 1 else 0) + voteCountFor es c).sum := by
            exact congrArg List.sum (List.map_congr_left (fun c _ => hcount c))
        _ = (L.map fun c => if e.2 = c then (1 : ℕ) else 0).sum
            + (L.map fun c => voteCountFor es c).sum := by
            rw [← List.sum_map_add]
        _ = 1 + es.length := by
            rw [sum_indicator_one hnd (hmem e (List.mem_cons_self e es)), ih hmem']
        _ = (e :: es).length := by
            rw [List.length_cons]; omega

/-! ### Candidate-list lemmas -/

lemma peerCandidates_spec {users : List User} {voter c : String}
    (h : c ∈ peerCandidates users voter) :
    c ≠ voter ∧ c ∈ officerChannelCandidates users := by
  unfold peerCandidates at h
  rcases List.mem_map.1 h with ⟨u, hu, rfl⟩
  rcases List.mem_filter.1 hu with ⟨hmem, hcond⟩
  rw [Bool.and_eq_true, bne_iff_ne, bne_iff_ne] at hcond
  refine ⟨hcond.2, ?_⟩
  unfold officerChannelCandidates
  exact List.mem_map.2 ⟨u, List.mem_filter.2 ⟨hmem, by rw [bne_iff_ne]; exact hcond.1⟩, rfl⟩

/-! ### The ledger invariant -/

/-- Everything that holds of every reachable ledger state: per-voter edge
counts are 0 or exactly 10 in each channel (at most one completed ballot
set), no peer edge is a self-vote, every edge names a non-administrator
candidate, the edge total of a channel is 10 times its completed-voter
count, and every stored self score is an integer in [0,100]. -/
structure LedgerInv (users : List User) (s : LedgerState) : Prop where
  peer_counts : ∀ v, voterBallotCount s.peerVotes v = 0 ∨ voterBallotCount s.peerVotes v = 10
  officer_counts : ∀ v,
    voterBallotCount s.officerVotes v = 0 ∨ voterBallotCount s.officerVotes v = 10
  peer_no_self : ∀ e ∈ s.peerVotes, e.1 ≠ e.2
  peer_cand : ∀ e ∈ s.peerVotes, e.2 ∈ officerChannelCandidates users
  officer_cand : ∀ e ∈ s.officerVotes, e.2 ∈ officerChannelCandidates users
  peer_total : s.peerVotes.length = 10 * completedVoterCount s.peerVotes
  officer_total : s.officerVotes.length = 10 * completedVoterCount s.officerVotes
  self_scores : ∀ p ∈ s.selfEvals, ∃ z : ℤ, p.2 = (z : ℚ) ∧ 0 ≤ z ∧ z ≤ 100

lemma ledgerInv_initial (users : List User) : LedgerInv users initialState := by
  refine ⟨?_, ?_, ?_, ?_, ?_, ?_, ?_, ?_⟩ <;>
    simp [initialState, voterBallotCount, completedVoterCount]

lemma inv_submitSelf {users : List User} {s : LedgerState} {uid : String}
    (hinv : LedgerInv users s) (z : ℤ) (h0 : 0 ≤ z) (h100 : z ≤ 100) :
    LedgerInv users (submitSelfScore s uid (z : ℚ)).2 := by
  by_cases h : hasSelfEval s uid
  · simpa [submitSelfScore, h] using hinv
  · simp only [submitSelfScore, h, Bool.false_eq_true, if_false]
    refine ⟨hinv.peer_counts, hinv.officer_counts, hinv.peer_no_self, hinv.peer_cand,
      hinv.officer_cand, hinv.peer_total, hinv.officer_total, ?_⟩
    intro p hp
    rcases List.mem_append.1 hp with h1 | h1
    · exact hinv.self_scores p h1
    · have : p = (uid, (z : ℚ)) := List.mem_singleton.1 h1
      subst this
      exact ⟨z, rfl, h0, h100⟩

lemma inv_submitPeer {users : List User} {s : LedgerState} (hinv : LedgerInv users s)
    (voter : String) (sel : List String)
    (hsub : ∀ c ∈ sel, c ∈ peerCandidates users voter) :
    LedgerInv users (submitPeerBallot s voter sel).2 := by
  by_cases hdup : voterBallotCount s.peerVotes voter > 0
  · simpa [submitPeerBallot, hdup] using hinv
  · by_cases hlen : sel.length = 10
    · have hzero : voterBallotCount s.peerVotes voter = 0 := by omega
      have hfresh : ∀ e ∈ s.peerVotes, e.1 ≠ voter := voterBallotCount_eq_zero.1 hzero
      have hne : sel ≠ [] := by
        intro h; rw [h] at hlen; simp at hlen
      simp only [submitPeerBallot, hdup, hlen, if_false, ne_eq, not_true_eq_false]
      refine ⟨?_, hinv.officer_counts, ?_, ?_, hinv.officer_cand, ?_, hinv.officer_total,
        hinv.self_scores⟩
      · intro v
        rw [voterBallotCount_append, voterBallotCount_batch]
        by_cases hv : voter = v
        · subst hv; rw [hzero]; simp [hlen]
        · simp only [hv, if_false]
          rcases hinv.peer_counts v with h | h <;> omega
      · intro e he
        rcases List.mem_append.1 he with h | h
        · exact hinv.peer_no_self e h
        · rcases List.mem_map.1 h with ⟨c, hc, rfl⟩
          exact fun hceq => (peerCandidates_spec (hsub c hc)).1 hceq.symm
      · intro e he
        rcases List.mem_append.1 he with h | h
        · exact hinv.peer_cand e h
        · rcases List.mem_map.1 h with ⟨c, hc, rfl⟩
          exact (peerCandidates_spec (hsub c hc)).2
      · rw [List.length_append, List.length_map,
          completedVoterCount_append_batch _ _ _ hne hfresh, hinv.peer_total, hlen]
        omega
    · simpa [submitPeerBallot, hdup, hlen] using hinv

lemma inv_submitOfficer {users : List User} {s : LedgerState} (hinv : LedgerInv users s)
    (voter : String) (sel : List String)
    (hsub : ∀ c ∈ sel, c ∈ officerChannelCandidates users) :
    LedgerInv users (submitOfficerBallot s voter sel).2 := by
  by_cases hdup : voterBallotCount s.officerVotes voter > 0
  · simpa [submitOfficerBallot, hdup] using hinv
  · by_cases hlen : sel.length = 10
    · have hzero : voterBallotCount s.officerVotes voter = 0 := by omega
      have hfresh : ∀ e ∈ s.officerVotes, e.1 ≠ voter := voterBallotCount_eq_zero.1 hzero
      have hne : sel ≠ [] := by
        intro h; rw [h] at hlen; simp at hlen
      simp only [submitOfficerBallot, hdup, hlen, if_false, ne_eq, not_true_eq_false]
      refine ⟨hinv.peer_counts, ?_, hinv.peer_no_self, hinv.peer_cand, ?_, hinv.peer_total,
        ?_, hinv.self_scores⟩
      · intro v
        rw [voterBallotCount_append, voterBallotCount_batch]
        by_cases hv : voter = v
        · subst hv; rw [hzero]; simp [hlen]
        · simp only [hv, if_false]
          rcases hinv.officer_counts v with h | h <;> omega
      · intro e he
        rcases List.mem_append.1 he with h | h
        · exact hinv.officer_cand e h
        · rcases List.mem_map.1 h with ⟨c, hc, rfl⟩
          exact hsub c hc
      · rw [List.length_append, List.length_map,
          completedVoterCount_append_batch _ _ _ hne hfresh, hinv.officer_total, hlen]
        omega
    · simpa [submitOfficerBallot, hdup, hlen] using hinv

lemma ledgerInv_step {users : List User} {s s' : LedgerState}
    (hinv : LedgerInv users s) (hstep : Step users s s') : LedgerInv users s' := by
  cases hstep with
  | selfEval u score hu hrole h0 h100 => exact inv_submitSelf hinv score h0 h100
  | peer u sel hu hrole hnd hsub hmax => exact inv_submitPeer hinv u.uid sel hsub
  | officer u sel hu hrole hnd hsub hmax => exact inv_submitOfficer hinv u.uid sel hsub
  | reset => exact ledgerInv_initial users

lemma reachable_inv {users : List User} {s : LedgerState}
    (h : Reachable users s) : LedgerInv users s := by
  induction h with
  | refl => exact ledgerInv_initial users
  | tail _ hstep ih => exact ledgerInv_step ih hstep

/-! ### Engine row lemmas -/

lemma mem_calculate_results {users : List User} {selfEvals : List (String × ℚ)}
    {peerVotes officerVotes : List (String × String)} {row : ResultRow} :
    row ∈ calculate_results users selfEvals peerVotes officerVotes ↔
      row ∈ (studentsOf users).map (mkRow users selfEvals peerVotes officerVotes) := by
  unfold calculate_results
  exact (List.perm_insertionSort rowLE _).mem_iff

lemma row_spec {users : List User} {selfEvals : List (String × ℚ)}
    {peerVotes officerVotes : List (String × String)} {row : ResultRow}
    (h : row ∈ calculate_results users selfEvals peerVotes officerVotes) :
    row.self_score = selfScoreOf selfEvals row.uid
    ∧ row.vote_count = voteCountFor peerVotes row.uid
    ∧ row.officer_vote_count = voteCountFor officerVotes row.uid
    ∧ row.peer_score = round2 (peerScoreExact users peerVotes row.uid)
    ∧ row.org_score = round2 (orgScoreExact officerVotes row.uid)
    ∧ row.final_score = round2 (finalScoreExact users selfEvals peerVotes officerVotes row.uid) := by
  rw [mem_calculate_results] at h
  rcases List.mem_map.1 h with ⟨u, hu, rfl⟩
  exact ⟨rfl, rfl, rfl, rfl, rfl, rfl⟩

lemma orgScoreExact_eq_mul (officerVotes : List (String × String)) (uid : String) :
    orgScoreExact officerVotes uid = 25 * (voteCountFor officerVotes uid : ℚ) := by
  unfold orgScoreExact; ring

/-! ### Claim C1 -/

/-- Concrete directory for the C1 counterexample: one configured officer id
is present, a second ordinary member is present, so the directory holds
exactly one member with the Officer role. -/
def c1Users : List User :=
  [⟨"251812037", "officer one", "student"⟩, ⟨"stu2", "member two", "student"⟩]

/-- One officer ballot edge for the C1 counterexample. -/
def c1OfficerVotes : List (String × String) := [("251812037", "stu2")]

/-- C1 (counterexample): with one directory member holding the Officer role
and a member with one officer vote, the engine reports an organisational
sub-score of 25 — the hardcoded `/ 4` of source line 127 — while the
claimed formula `officerVoteCount / OfficerCount * 100` yields 100. -/
theorem c1_counterexample :
    directoryOfficerCount c1Users = 1
    ∧ ((calculate_results c1Users [] [] c1OfficerVotes).find? (fun r => r.uid == "stu2")).map
        ResultRow.officer_vote_count = some 1
    ∧ ((calculate_results c1Users [] [] c1OfficerVotes).find? (fun r => r.uid == "stu2")).map
        ResultRow.org_score = some 25
    ∧ ((1 : ℚ) / (directoryOfficerCount c1Users : ℚ)) * 100 = 100
    ∧ (25 : ℚ) ≠ 100 := by
  refine ⟨?_, ?_, ?_, ?_, ?_⟩ <;> with_unfolding_all decide

/-- C1 (amended): for every member in the ranking the organisational
sub-score equals `(officerVoteCount / 4) * 100` with the divisor the
hardcoded literal 4 of source line 127 — equal to the size of the
configured `OFFICER_IDS` list, but not derived from the directory members
actually holding the Officer role.  The value is exact: multiples of 25
survive the 2-decimal rounding unchanged. -/
theorem c1_org_score_hardcoded_divisor (users : List User) (selfEvals : List (String × ℚ))
    (peerVotes officerVotes : List (String × String)) (row : ResultRow)
    (hrow : row ∈ calculate_results users selfEvals peerVotes officerVotes) :
    row.org_score = (row.officer_vote_count : ℚ) / 4 * 100 := by
  obtain ⟨-, -, hovc, -, horg, -⟩ := row_spec hrow
  rw [horg, hovc, orgScoreExact_eq_mul, round2_natMul]
  ring

/-- Singleton directory used by the C1 and C3 witnesses. -/
def w1Users : List User := [⟨"u1", "only", "student"⟩]

/-- C1 witness: the amended theorem applied to the single row of a concrete
snapshot. -/
theorem c1_witness :
    mkRow w1Users [] [] [] ⟨"u1", "only", "student"⟩ ∈ calculate_results w1Users [] [] []
    ∧ (mkRow w1Users [] [] [] ⟨"u1", "only", "student"⟩).org_score
        = ((mkRow w1Users [] [] [] ⟨"u1", "only", "student"⟩).officer_vote_count : ℚ) / 4 * 100 := by
  have h : mkRow w1Users [] [] [] ⟨"u1", "only", "student"⟩ ∈ calculate_results w1Users [] [] [] := by
    with_unfolding_all decide
  exact ⟨h, c1_org_score_hardcoded_divisor w1Users [] [] [] _ h⟩

/-! ### Claim C2 -/

/-- Directory for the C2 counterexample: two members inserted in descending
uid order, so table order and memberId order disagree. -/
def c2Users : List User := [⟨"2", "b", "student"⟩, ⟨"1", "a", "student"⟩]

/-- C2 (counterexample): with no ballots and no self scores both members tie
on all four sort keys, and the engine returns them in table order
`["2", "1"]` — pandas `sort_values` on a column list is a stable lexsort —
not in the memberId-ascending order `["1", "2"]` the claim requires for
residual ties. -/
theorem c2_counterexample :
    (calculate_results c2Users [] [] []).map ResultRow.uid = ["2", "1"]
    ∧ (calculate_results c2Users [] [] []).map ResultRow.final_score = [0, 0]
    ∧ (calculate_results c2Users [] [] []).map ResultRow.org_score = [0, 0]
    ∧ (calculate_results c2Users [] [] []).map ResultRow.vote_count = [0, 0]
    ∧ (calculate_results c2Users [] [] []).map ResultRow.self_score = [0, 0]
    ∧ ¬ (("2" : String) ≤ "1") := by
  refine ⟨?_, ?_, ?_, ?_, ?_, ?_⟩ <;> with_unfolding_all decide

/-- C2 (amended): the ranking is ordered by finalScore descending with ties
broken by orgScore descending, then raw peer vote count descending, then
selfScore descending (source line 139), and is a permutation of the
eligible-member rows; residual ties keep the directory table order of the
stable sort — there is no memberId tie-break. -/
theorem c2_ranking_sorted_stable (users : List User) (selfEvals : List (String × ℚ))
    (peerVotes officerVotes : List (String × String)) :
    (calculate_results users selfEvals peerVotes officerVotes).Sorted rowLE
    ∧ (calculate_results users selfEvals peerVotes officerVotes).Perm
        ((studentsOf users).map (mkRow users selfEvals peerVotes officerVotes)) :=
  ⟨List.sorted_insertionSort rowLE _, List.perm_insertionSort rowLE _⟩

/-! ### Claim C3 -/

/-- Seventeen-member directory for the C3 counterexample (denominator
N - 1 = 16). -/
def c3Users : List User :=
  [⟨"s01", "n", "student"⟩, ⟨"s02", "n", "student"⟩, ⟨"s03", "n", "student"⟩,
   ⟨"s04", "n", "student"⟩, ⟨"s05", "n", "student"⟩, ⟨"s06", "n", "student"⟩,
   ⟨"s07", "n", "student"⟩, ⟨"s08", "n", "student"⟩, ⟨"s09", "n", "student"⟩,
   ⟨"s10", "n", "student"⟩, ⟨"s11", "n", "student"⟩, ⟨"s12", "n", "student"⟩,
   ⟨"s13", "n", "student"⟩, ⟨"s14", "n", "student"⟩, ⟨"s15", "n", "student"⟩,
   ⟨"s16", "n", "student"⟩, ⟨"s17", "n", "student"⟩]

/-- Three peer edges for the C3 counterexample, all naming member s17. -/
def c3PeerVotes : List (String × String) := [("s01", "s17"), ("s02", "s17"), ("s03", "s17")]

/-- C3 (counterexample): member s17 has exact composite score
0.3·0 + 0.3·(3/16·100) + 0.4·0 = 5.625; the engine reports 5.62 (numpy
rounds the tie on 562.5 to the even 562), while rounding half away from
zero, as the claim states, would give 5.63. -/
theorem c3_counterexample :
    finalScoreExact c3Users [] c3PeerVotes [] "s17" = 45/8
    ∧ ((calculate_results c3Users [] c3PeerVotes []).find? (fun r => r.uid == "s17")).map
        ResultRow.final_score = some (281/50)
    ∧ roundHalfAway2 (45/8) = 563/100
    ∧ (281/50 : ℚ) ≠ 563/100 := by
  refine ⟨?_, ?_, ?_, ?_⟩ <;> with_unfolding_all decide

/-- C3 (amended): for every member in the ranking the final score equals
0.3·selfScore + 0.3·peerScore + 0.4·orgScore rounded to 2 decimal places
with round-half-to-even (the numpy rounding behind pandas `round(2)`),
not round-half-away-from-zero. -/
theorem c3_final_score_half_even (users : List User) (selfEvals : List (String × ℚ))
    (peerVotes officerVotes : List (String × String)) (row : ResultRow)
    (hrow : row ∈ calculate_results users selfEvals peerVotes officerVotes) :
    row.final_score = round2 ((3 : ℚ)/10 * row.self_score
      + (3 : ℚ)/10 * ((row.vote_count : ℚ) / (maxPeerVotes users : ℚ) * 100)
      + (2 : ℚ)/5 * ((row.officer_vote_count : ℚ) / 4 * 100)) := by
  obtain ⟨hself, hvc, hovc, -, -, hfin⟩ := row_spec hrow
  rw [hfin, hself, hvc, hovc]
  congr 1
  unfold finalScoreExact peerScoreExact orgScoreExact
  ring

/-- C3 witness: the amended theorem applied to the single row of a concrete
snapshot. -/
theorem c3_witness :
    mkRow w1Users [] [] [] ⟨"u1", "only", "student"⟩ ∈ calculate_results w1Users [] [] []
    ∧ (mkRow w1Users [] [] [] ⟨"u1", "only", "student"⟩).final_score
        = round2 ((3 : ℚ)/10 * (mkRow w1Users [] [] [] ⟨"u1", "only", "student"⟩).self_score
          + (3 : ℚ)/10 * (((mkRow w1Users [] [] [] ⟨"u1", "only", "student"⟩).vote_count : ℚ)
              / (maxPeerVotes w1Users : ℚ) * 100)
          + (2 : ℚ)/5 * (((mkRow w1Users [] [] [] ⟨"u1", "only", "student"⟩).officer_vote_count : ℚ)
              / 4 * 100)) := by
  have h : mkRow w1Users [] [] [] ⟨"u1", "only", "student"⟩ ∈ calculate_results w1Users [] [] [] := by
    with_unfolding_all decide
  exact ⟨h, c3_final_score_half_even w1Users [] [] [] _ h⟩

/-! ### Claim C4 -/

/-- C4 (confirmed): the peer sub-score of source line 123 equals
`peerVoteCount / max(N - 1, 1) * 100` where `N` is the size of the eligible
population (directory members with role student or officer): the branching
denominator of source line 122 is exactly `max (N - 1) 1`, so the
degenerate populations N = 0 and N = 1 divide by 1. -/
theorem c4_peer_score_denominator (users : List User)
    (peerVotes : List (String × String)) (uid : String) :
    peerScoreExact users peerVotes uid
      = (voteCountFor peerVotes uid : ℚ)
          / ((max ((studentsOf users).length - 1) 1 : ℕ) : ℚ) * 100 := by
  have hden : (if (studentsOf users).length > 1 then (studentsOf users).length - 1 else 1)
      = max ((studentsOf users).length - 1) 1 := by
    split_ifs <;> omega
  unfold peerScoreExact maxPeerVotes
  rw [hden]

/-! ### Claim C5 -/

/-- C5 (confirmed): in either channel a submission whose candidate set,
after collapsing duplicates, does not hold exactly 10 distinct candidates
is rejected with the cardinality error and persists zero edges (the state
is returned unchanged); a submission with exactly 10 distinct candidates by
a voter with no prior ballot succeeds and persists exactly the 10 edges in
one step.  Selections are duplicate-free by construction of the multiselect
widget, so the handler's raw length check coincides with the distinct
count. -/
theorem c5_ballot_cardinality (s : LedgerState) (voter : String) (sel : List String)
    (hnd : sel.Nodup) :
    (sel.dedup.length ≠ 10 →
      (submitPeerBallot s voter sel).2 = s
      ∧ (submitOfficerBallot s voter sel).2 = s
      ∧ (voterBallotCount s.peerVotes voter = 0 →
          (submitPeerBallot s voter sel).1 = SubmitResult.wrongCardinality)
      ∧ (voterBallotCount s.officerVotes voter = 0 →
          (submitOfficerBallot s voter sel).1 = SubmitResult.wrongCardinality))
    ∧ (sel.dedup.length = 10 → voterBallotCount s.peerVotes voter = 0 →
        (submitPeerBallot s voter sel).1 = SubmitResult.ok
        ∧ (submitPeerBallot s voter sel).2.peerVotes
            = s.peerVotes ++ sel.map (fun c => (voter, c))
        ∧ (sel.map (fun c => (voter, c))).length = 10)
    ∧ (sel.dedup.length = 10 → voterBallotCount s.officerVotes voter = 0 →
        (submitOfficerBallot s voter sel).1 = SubmitResult.ok
        ∧ (submitOfficerBallot s voter sel).2.officerVotes
            = s.officerVotes ++ sel.map (fun c => (voter, c))
        ∧ (sel.map (fun c => (voter, c))).length = 10) := by
  have hdedup : sel.dedup = sel := List.dedup_eq_self.2 hnd
  rw [hdedup]
  refine ⟨fun hne => ⟨?_, ?_, fun hz => ?_, fun hz => ?_⟩, fun h10 hz => ?_, fun h10 hz => ?_⟩
  · by_cases hdup : voterBallotCount s.peerVotes voter > 0 <;>
      simp [submitPeerBallot, hdup, hne]
  · by_cases hdup : voterBallotCount s.officerVotes voter > 0 <;>
      simp [submitOfficerBallot, hdup, hne]
  · have hdup : ¬ voterBallotCount s.peerVotes voter > 0 := by omega
    simp [submitPeerBallot, hdup, hne]
  · have hdup : ¬ voterBallotCount s.officerVotes voter > 0 := by omega
    simp [submitOfficerBallot, hdup, hne]
  · have hdup : ¬ voterBallotCount s.peerVotes voter > 0 := by omega
    refine ⟨?_, ?_, ?_⟩ <;> simp [submitPeerBallot, hdup, h10]
  · have hdup : ¬ voterBallotCount s.officerVotes voter > 0 := by omega
    refine ⟨?_, ?_, ?_⟩ <;> simp [submitOfficerBallot, hdup, h10]

/-- Ten distinct candidate ids used by the C5 witness. -/
def c5Sel : List String :=
  ["c01", "c02", "c03", "c04", "c05", "c06", "c07", "c08", "c09", "c10"]

/-- C5 witness: the theorem applied to a concrete 10-candidate submission on
the empty ledger. -/
theorem c5_witness :
    c5Sel.Nodup
    ∧ (submitPeerBallot initialState "v" c5Sel).1 = SubmitResult.ok
    ∧ (submitPeerBallot initialState "v" c5Sel).2.peerVotes
        = initialState.peerVotes ++ c5Sel.map (fun c => ("v", c)) := by
  have hnd : c5Sel.Nodup := by with_unfolding_all decide
  have h10 : c5Sel.dedup.length = 10 := by with_unfolding_all decide
  have hz : voterBallotCount initialState.peerVotes "v" = 0 := rfl
  obtain ⟨-, hsucc, -⟩ := c5_ballot_cardinality initialState "v" c5Sel hnd
  obtain ⟨h1, h2, -⟩ := hsucc h10 hz
  exact ⟨hnd, h1, h2⟩

/-! ### Claim C6 -/

/-- C6 (confirmed): in every reachable ledger state each (voter, channel)
pair has at most one completed ballot set — its persisted edge count is 0
or exactly 10 — and a further submission by a voter who already has edges
in the channel is rejected with the duplicate notice and leaves the ledger
unchanged. -/
theorem c6_duplicate_submission (users : List User) (s : LedgerState)
    (hreach : Reachable users s) :
    (∀ v, voterBallotCount s.peerVotes v = 0 ∨ voterBallotCount s.peerVotes v = 10)
    ∧ (∀ v, voterBallotCount s.officerVotes v = 0 ∨ voterBallotCount s.officerVotes v = 10)
    ∧ (∀ v sel, 0 < voterBallotCount s.peerVotes v →
        submitPeerBallot s v sel = (SubmitResult.duplicateSubmission, s))
    ∧ (∀ v sel, 0 < voterBallotCount s.officerVotes v →
        submitOfficerBallot s v sel = (SubmitResult.duplicateSubmission, s)) := by
  have hinv := reachable_inv hreach
  refine ⟨hinv.peer_counts, hinv.officer_counts, fun v sel h => ?_, fun v sel h => ?_⟩
  · simp [submitPeerBallot, h]
  · simp [submitOfficerBallot, h]

/-- Eleven-member directory for the reachable witness state. -/
def wUsers : List User :=
  [⟨"u01", "p01", "student"⟩, ⟨"u02", "p02", "student"⟩, ⟨"u03", "p03", "student"⟩,
   ⟨"u04", "p04", "student"⟩, ⟨"u05", "p05", "student"⟩, ⟨"u06", "p06", "student"⟩,
   ⟨"u07", "p07", "student"⟩, ⟨"u08", "p08", "student"⟩, ⟨"u09", "p09", "student"⟩,
   ⟨"u10", "p10", "student"⟩, ⟨"u11", "p11", "student"⟩]

/-- The 10 peers u01 selects in the witness run. -/
def wSel : List String :=
  ["u02", "u03", "u04", "u05", "u06", "u07", "u08", "u09", "u10", "u11"]

/-- The witness ledger after u01 completes a peer ballot. -/
def wState : LedgerState := (submitPeerBallot initialState "u01" wSel).2

lemma wStep : Step wUsers initialState wState := by
  exact Step.peer initialState ⟨"u01", "p01", "student"⟩ wSel
    (by with_unfolding_all decide)
    (Or.inl (by with_unfolding_all decide))
    (by with_unfolding_all decide)
    (by with_unfolding_all decide)
    (by with_unfolding_all decide)

lemma wReach : Reachable wUsers wState := Relation.ReflTransGen.single wStep

/-- C6 witness: the theorem applied to the concrete reachable state in which
u01 has a completed peer ballot; the duplicate count is 10 and a second
submission is rejected unchanged. -/
theorem c6_witness :
    Reachable wUsers wState
    ∧ (voterBallotCount wState.peerVotes "u01" = 0 ∨ voterBallotCount wState.peerVotes "u01" = 10)
    ∧ voterBallotCount wState.peerVotes "u01" = 10
    ∧ submitPeerBallot wState "u01" wSel = (SubmitResult.duplicateSubmission, wState) := by
  have h := c6_duplicate_submission wUsers wState wReach
  exact ⟨wReach, h.1 "u01", by with_unfolding_all decide,
    h.2.2.1 "u01" wSel (by with_unfolding_all decide)⟩

/-! ### Claim C7 -/

/-- Ten distinct candidate ids containing the voter personally, for the C7
counterexample. -/
def c7Sel : List String :=
  ["v", "c02", "c03", "c04", "c05", "c06", "c07", "c08", "c09", "c10"]

/-- C7 (counterexample): the peer-ballot submit handler performs no
self-vote check — fed a 10-candidate set containing the voter personally it
succeeds and persists the self edge, rather than failing with a
self-vote-forbidden error.  (Through the interface this input cannot arise,
because the candidate list excludes the voter; see the amended theorem.) -/
theorem c7_counterexample :
    "v" ∈ c7Sel
    ∧ (submitPeerBallot initialState "v" c7Sel).1 = SubmitResult.ok
    ∧ ("v", "v") ∈ (submitPeerBallot initialState "v" c7Sel).2.peerVotes := by
  refine ⟨?_, ?_, ?_⟩ <;> with_unfolding_all decide

/-- C7 (amended): the Peer candidate list rendered by the interface excludes
the voter personally, so no submission reachable through the interface
contains the voter's own id, and in every reachable ledger state no
persisted peer edge is a self-vote; the handler itself has no
SelfVoteForbidden rejection. -/
theorem c7_no_self_peer_edges (users : List User) (s : LedgerState)
    (hreach : Reachable users s) :
    (∀ voter c, c ∈ peerCandidates users voter → c ≠ voter)
    ∧ (∀ e ∈ s.peerVotes, e.1 ≠ e.2) :=
  ⟨fun _voter _c hc => (peerCandidates_spec hc).1, (reachable_inv hreach).peer_no_self⟩

/-- C7 witness: the amended theorem applied to the concrete reachable
witness state. -/
theorem c7_witness :
    Reachable wUsers wState ∧ (∀ e ∈ wState.peerVotes, e.1 ≠ e.2) :=
  ⟨wReach, (c7_no_self_peer_edges wUsers wState wReach).2⟩

/-! ### Claim C8 -/

/-- C8 (counterexample): the self-evaluation handler performs no range check
— fed the score 150 on an empty ledger it succeeds and stores 150, rather
than failing with an invalid-score error.  (Through the interface this
input cannot arise: the number widget is bounded to integers in [0,100].) -/
theorem c8_counterexample :
    (submitSelfScore initialState "u1" 150).1 = SubmitResult.ok
    ∧ ("u1", (150 : ℚ)) ∈ (submitSelfScore initialState "u1" 150).2.selfEvals
    ∧ ¬ ((150 : ℚ) ≤ 100) := by
  refine ⟨?_, ?_, ?_⟩ <;> with_unfolding_all decide

/-- C8 (amended): a resubmission by a member with an existing
self-assessment record is rejected with the already-submitted notice and
the ledger — in particular the stored score — is unchanged, so the record
is immutable; and in every reachable state every stored score is an integer
in [0,100], enforced by the input widget rather than by an InvalidScore
failure of the handler. -/
theorem c8_self_score_immutable (users : List User) (s : LedgerState) (uid : String)
    (score : ℚ) (hreach : Reachable users s) :
    (hasSelfEval s uid = true →
      submitSelfScore s uid score = (SubmitResult.alreadySubmitted, s))
    ∧ (∀ p ∈ s.selfEvals, ∃ z : ℤ, p.2 = (z : ℚ) ∧ 0 ≤ z ∧ z ≤ 100) := by
  refine ⟨fun h => ?_, (reachable_inv hreach).self_scores⟩
  simp [submitSelfScore, h]

/-- The witness ledger after u01 also submits the self score 80. -/
def wState2 : LedgerState := (submitSelfScore wState "u01" ((80 : ℤ) : ℚ)).2

lemma wStep2 : Step wUsers wState wState2 := by
  exact Step.selfEval wState ⟨"u01", "p01", "student"⟩ 80
    (by with_unfolding_all decide)
    (Or.inl (by with_unfolding_all decide))
    (by decide)
    (by decide)

lemma wReach2 : Reachable wUsers wState2 := wReach.tail wStep2

/-- C8 witness: the theorem applied to the concrete reachable state in which
u01 has a stored self score; the resubmission of 99 is rejected unchanged. -/
theorem c8_witness :
    Reachable wUsers wState2
    ∧ hasSelfEval wState2 "u01" = true
    ∧ submitSelfScore wState2 "u01" 99 = (SubmitResult.alreadySubmitted, wState2) := by
  have hh : hasSelfEval wState2 "u01" = true := by with_unfolding_all decide
  exact ⟨wReach2, hh, (c8_self_score_immutable wUsers wState2 "u01" 99 wReach2).1 hh⟩

/-! ### Claim C9 -/

/-- C9 (confirmed): in every reachable ledger state, for a directory with
distinct uids, the sum of the per-candidate vote counts over all candidates
(the non-administrator members — exactly the candidate universe of both
widgets) equals 10 times the channel's completed-voter count, in the peer
channel and symmetrically in the officer channel. -/
theorem c9_vote_count_sum (users : List User) (s : LedgerState)
    (hnd : (officerChannelCandidates users).Nodup) (hreach : Reachable users s) :
    ((officerChannelCandidates users).map (fun c => voteCountFor s.peerVotes c)).sum
        = 10 * completedVoterCount s.peerVotes
    ∧ ((officerChannelCandidates users).map (fun c => voteCountFor s.officerVotes c)).sum
        = 10 * completedVoterCount s.officerVotes := by
  have hinv := reachable_inv hreach
  constructor
  · rw [sum_counts_eq_length _ _ hnd hinv.peer_cand]
    exact hinv.peer_total
  · rw [sum_counts_eq_length _ _ hnd hinv.officer_cand]
    exact hinv.officer_total

/-- C9 witness: the theorem applied to the concrete reachable witness state,
where the peer edge total is 10 and exactly one voter has completed. -/
theorem c9_witness :
    (officerChannelCandidates wUsers).Nodup
    ∧ Reachable wUsers wState
    ∧ ((officerChannelCandidates wUsers).map (fun c => voteCountFor wState.peerVotes c)).sum
        = 10 * completedVoterCount wState.peerVotes
    ∧ completedVoterCount wState.peerVotes = 1 := by
  have hnd : (officerChannelCandidates wUsers).Nodup := by with_unfolding_all decide
  exact ⟨hnd, wReach, (c9_vote_count_sum wUsers wState hnd wReach).1,
    by with_unfolding_all decide⟩

/-! ### Claim C10 -/

/-- The ordering the claim describes: the rounded final score, the rounded
organisational sub-score, the ROUNDED peer sub-score (`peer_score` after
source line 135) and the raw self score, each descending.  The source sorts
on the raw `vote_count` instead of the rounded peer score, so this relation
is not the source comparison; the claim theorem shows the produced order
nevertheless always respects it. -/
def rowLE10 (a b : ResultRow) : Prop :=
  b.final_score < a.final_score ∨ (b.final_score = a.final_score ∧
    (b.org_score < a.org_score ∨ (b.org_score = a.org_score ∧
      (b.peer_score < a.peer_score ∨ (b.peer_score = a.peer_score ∧
        b.self_score ≤ a.self_score)))))

lemma selfScoreOf_int {selfEvals : List (String × ℚ)}
    (hint : ∀ p ∈ selfEvals, ∃ z : ℤ, p.2 = (z : ℚ)) (uid : String) :
    ∃ z : ℤ, selfScoreOf selfEvals uid = (z : ℚ) := by
  unfold selfScoreOf
  cases hfind : selfEvals.find? (fun p => p.1 == uid) with
  | none => exact ⟨0, by simp⟩
  | some p =>
      obtain ⟨z, hz⟩ := hint p (List.mem_of_find?_eq_some hfind)
      exact ⟨z, by simp [hz]⟩

lemma maxPeerVotes_pos (users : List User) : 1 ≤ maxPeerVotes users := by
  unfold maxPeerVotes; split_ifs <;> omega

lemma peerScoreExact_lt (users : List User) (peerVotes : List (String × String))
    {x y : String} (h : voteCountFor peerVotes y < voteCountFor peerVotes x) :
    peerScoreExact users peerVotes y < peerScoreExact users peerVotes x := by
  unfold peerScoreExact
  have hD : (0 : ℚ) < (maxPeerVotes users : ℚ) := by
    exact_mod_cast Nat.lt_of_lt_of_le Nat.zero_lt_one (maxPeerVotes_pos users)
  have hc : (voteCountFor peerVotes y : ℚ) < (voteCountFor peerVotes x : ℚ) := by
    exact_mod_cast h
  rw [div_eq_mul_inv, div_eq_mul_inv]
  exact mul_lt_mul_of_pos_right (mul_lt_mul_of_pos_right hc (inv_pos.2 hD)) (by norm_num)

lemma selves_eq {sa sb pa pb oa ob : ℚ} {za zb : ℤ}
    (hsa : sa = (za : ℚ)) (hsb : sb = (zb : ℚ)) (hoe : ob = oa)
    (hfe : round2 (sb * (3/10) + pb * (3/10) + ob * (2/5))
         = round2 (sa * (3/10) + pa * (3/10) + oa * (2/5)))
    (hpe : round2 pb = round2 pa) : sa = sb := by
  have h1 := round2_eq_dist hfe
  have h2 := round2_eq_dist hpe
  rw [abs_le] at h1 h2
  have key : (sb - sa) * (3/10)
      = (sb * (3/10) + pb * (3/10) + ob * (2/5))
        - (sa * (3/10) + pa * (3/10) + oa * (2/5)) - (pb - pa) * (3/10) := by
    rw [hoe]; ring
  have hb1 : sb - sa ≤ 13/300 := by linarith
  have hb2 : -(13/300) ≤ sb - sa := by linarith
  rw [hsa, hsb] at hb1 hb2 ⊢
  have hlt1 : ((zb - za : ℤ) : ℚ) < 1 := by push_cast; linarith
  have hlt2 : ((za - zb : ℤ) : ℚ) < 1 := by push_cast; linarith
  have h1' : zb - za < 1 := by exact_mod_cast hlt1
  have h2' : za - zb < 1 := by exact_mod_cast hlt2
  have : za = zb := by omega
  rw [this]

lemma rowLE_imp_rowLE10 {users : List User} {selfEvals : List (String × ℚ)}
    {peerVotes officerVotes : List (String × String)} {a b : ResultRow}
    (hint : ∀ p ∈ selfEvals, ∃ z : ℤ, p.2 = (z : ℚ))
    (ha : a ∈ (studentsOf users).map (mkRow users selfEvals peerVotes officerVotes))
    (hb : b ∈ (studentsOf users).map (mkRow users selfEvals peerVotes officerVotes))
    (h : rowLE a b) : rowLE10 a b := by
  rcases List.mem_map.1 ha with ⟨ua, -, rfl⟩
  rcases List.mem_map.1 hb with ⟨ub, -, rfl⟩
  obtain ⟨za, hza⟩ := selfScoreOf_int hint ua.uid
  obtain ⟨zb, hzb⟩ := selfScoreOf_int hint ub.uid
  unfold rowLE at h
  unfold rowLE10
  simp only [mkRow] at h ⊢
  rcases h with h1 | ⟨e1, h⟩
  · exact Or.inl h1
  · refine Or.inr ⟨e1, ?_⟩
    rcases h with h2 | ⟨e2, h⟩
    · exact Or.inl h2
    · refine Or.inr ⟨e2, ?_⟩
      have hoe : orgScoreExact officerVotes ub.uid = orgScoreExact officerVotes ua.uid := by
        rw [orgScoreExact_eq_mul, orgScoreExact_eq_mul, round2_natMul, round2_natMul] at e2
        rw [orgScoreExact_eq_mul, orgScoreExact_eq_mul, e2]
      rcases h with h3 | ⟨e3, h4⟩
      · have hplt := peerScoreExact_lt users peerVotes h3
        rcases eq_or_lt_of_le (round2_mono (le_of_lt hplt)) with heq | hlt
        · refine Or.inr ⟨heq, ?_⟩
          have hse : selfScoreOf selfEvals ua.uid = selfScoreOf selfEvals ub.uid := by
            unfold finalScoreExact at e1
            exact selves_eq hza hzb hoe e1 heq
          exact le_of_eq hse.symm
        · exact Or.inl hlt
      · have hpe : peerScoreExact users peerVotes ub.uid
            = peerScoreExact users peerVotes ua.uid := by
          unfold peerScoreExact
          rw [e3]
        exact Or.inr ⟨by rw [hpe], h4⟩

/-- C10 (confirmed): for every snapshot whose stored self scores are
integers (as the input widget guarantees), the produced ranking is ordered
by the rounded keys the claim names — rounded final score, rounded
organisational sub-score, rounded peer sub-score, then self score, each
descending — and any two members whose exact organisational sub-scores
differ by less than half a hundredth carry equal organisational keys (on
this snapshot family exact organisational sub-scores are multiples of 25,
so such a difference is only ever zero).  The source's own peer tie-break
column is the raw `vote_count`; this theorem shows the resulting order
still always respects the rounded peer key. -/
theorem c10_rounded_tie_break_keys (users : List User) (selfEvals : List (String × ℚ))
    (peerVotes officerVotes : List (String × String))
    (hint : ∀ p ∈ selfEvals, ∃ z : ℤ, p.2 = (z : ℚ)) :
    (calculate_results users selfEvals peerVotes officerVotes).Pairwise rowLE10
    ∧ (∀ a ∈ calculate_results users selfEvals peerVotes officerVotes,
        ∀ b ∈ calculate_results users selfEvals peerVotes officerVotes,
          |orgScoreExact officerVotes a.uid - orgScoreExact officerVotes b.uid| < 1/200 →
            a.org_score = b.org_score) := by
  constructor
  · have hsorted : (calculate_results users selfEvals peerVotes officerVotes).Pairwise rowLE :=
      List.sorted_insertionSort rowLE _
    refine List.Pairwise.imp_of_mem ?_ hsorted
    intro a b hamem hbmem hab
    exact rowLE_imp_rowLE10 hint (mem_calculate_results.1 hamem)
      (mem_calculate_results.1 hbmem) hab
  · intro a ha b hb habs
    obtain ⟨-, -, -, -, horga, -⟩ := row_spec ha
    obtain ⟨-, -, -, -, horgb, -⟩ := row_spec hb
    rw [orgScoreExact_eq_mul, orgScoreExact_eq_mul] at habs
    have hvv : voteCountFor officerVotes a.uid = voteCountFor officerVotes b.uid := by
      by_contra hne
      have hz : ((voteCountFor officerVotes a.uid : ℤ) - (voteCountFor officerVotes b.uid : ℤ)) ≠ 0 := by
        intro hzz
        apply hne
        omega
      have hone : (1 : ℤ) ≤ |(voteCountFor officerVotes a.uid : ℤ)
          - (voteCountFor officerVotes b.uid : ℤ)| := Int.one_le_abs hz
      have honeq : (1 : ℚ) ≤ |(voteCountFor officerVotes a.uid : ℚ)
          - (voteCountFor officerVotes b.uid : ℚ)| := by
        have : ((1 : ℤ) : ℚ) ≤ ((|(voteCountFor officerVotes a.uid : ℤ)
            - (voteCountFor officerVotes b.uid : ℤ)| : ℤ) : ℚ) := by
          exact_mod_cast hone
        rw [Int.cast_abs] at this
        push_cast at this ⊢
        exact this
      have habs25 : |25 * (voteCountFor officerVotes a.uid : ℚ)
          - 25 * (voteCountFor officerVotes b.uid : ℚ)|
          = 25 * |(voteCountFor officerVotes a.uid : ℚ)
              - (voteCountFor officerVotes b.uid : ℚ)| := by
        rw [show 25 * (voteCountFor officerVotes a.uid : ℚ)
            - 25 * (voteCountFor officerVotes b.uid : ℚ)
            = 25 * ((voteCountFor officerVotes a.uid : ℚ)
              - (voteCountFor officerVotes b.uid : ℚ)) by ring, abs_mul,
          abs_of_nonneg (by norm_num : (0:ℚ) ≤ 25)]
      rw [habs25] at habs
      linarith
    rw [horga, horgb, orgScoreExact_eq_mul, orgScoreExact_eq_mul, hvv]

/-- C10 witness: the theorem applied to a concrete snapshot with one stored
integer self score. -/
theorem c10_witness :
    (∀ p ∈ ([("u1", (80 : ℚ))] : List (String × ℚ)), ∃ z : ℤ, p.2 = (z : ℚ))
    ∧ (calculate_results w1Users [("u1", (80 : ℚ))] [] []).Pairwise rowLE10 := by
  have hint : ∀ p ∈ ([("u1", (80 : ℚ))] : List (String × ℚ)), ∃ z : ℤ, p.2 = (z : ℚ) := by
    intro p hp
    rw [List.mem_singleton] at hp
    subst hp
    exact ⟨80, by norm_num⟩
  exact ⟨hint, (c10_rounded_tie_break_keys w1Users _ [] [] hint).1⟩

end ClassVote
